import Mathlib

/-!
Verification development for `doxygen_junit.py`: a shallow embedding of the
program (line classification via the two regular expressions, aggregation
into a per-file collection of deduplicated diagnostic records, and emission
of the JUnit XML test suite), together with theorems settling the spec
claims against it.

The Python regular expressions are embedded by their operational semantics:
`re.search(r"(.+):(\d+):\s*(error|warning):\s+(.*)", line)` starts its match
at position 0 whenever any match exists (the leading `.+` absorbs any
prefix), and the greedy `.+` selects the longest file-name prefix for which
the remainder of the line parses as `:<digits>:<spaces><sev>:<spaces+><msg>`.
`matchPrimary` below realises exactly that search order policy (longest
prefix first), and `parseAfterFile` realises the deterministic remainder
(each quantifier in the remainder is delimited by a character class disjoint
from its follower, so greediness there is plain maximal-munch).
-/

/-- ASCII whitespace recognised by Python's `\s` and `str.rstrip`. -/
def isPySpace (c : Char) : Bool :=
  c = ' ' || c = '\t' || c = '\n' || c = '\r' || c = '\x0b' || c = '\x0c'

/-- `DoxygenError` from the source: a diagnostic record with structural
equality on `(line, message)` (the Python class compares `__dict__` and
hashes `(line, message)`). -/
structure DoxygenError where
  line : Nat
  message : String
deriving DecidableEq

/-- Decimal value of a digit string, as computed by Python's `int()` on the
digit-only capture of `(\d+)`. -/
def digitsVal (ds : List Char) : Nat :=
  ds.foldl (fun a c => a * 10 + (c.toNat - 48)) 0

/-- Decimal rendering of a natural number, as computed by Python's `str()`
on a non-negative int (fuel-structural so that it reduces definitionally). -/
def natDigitsAux : Nat → Nat → List Char
  | 0, _ => []
  | fuel + 1, n =>
    if n = 0 then [] else natDigitsAux fuel (n / 10) ++ [Char.ofNat (48 + n % 10)]

/-- `str(n)` for a non-negative Python int. -/
def pyStr (n : Nat) : String :=
  if n = 0 then "0" else ⟨natDigitsAux n n⟩

/-- Strip a literal pattern from the front of the input, returning the rest. -/
def stripLit : List Char → List Char → Option (List Char)
  | [], r => some r
  | p :: ps, c :: cs => if c = p then stripLit ps cs else none
  | _ :: _, [] => none

/-- Match the alternation `(error|warning):` at the front of the input:
the severity keyword must be exactly `error` or `warning`, case-sensitively,
followed by a literal colon. -/
def stripSev (l : List Char) : Option (List Char) :=
  match stripLit "error:".data l with
  | some r => some r
  | none => stripLit "warning:".data l

/-- The remainder of the primary pattern after the candidate file name:
`:(\d+):\s*(error|warning):\s+(.*)`.  Returns the parsed line number and the
message.  Every quantifier here is deterministic maximal-munch: `(\d+)` is
delimited by the following literal `:`, `\s*` and `\s+` are delimited by the
non-space letters of the severity keyword and by the end of the whitespace
run, and `(.*)` takes the whole rest of the line. -/
def parseAfterFile : List Char → Option (Nat × String)
  | [] => none
  | c :: rest1 =>
    if c = ':' then
      let ds := rest1.takeWhile Char.isDigit
      if ds.isEmpty then none
      else
        let after := rest1.drop ds.length
        if after.head? = some ':' then
          let rest3 := after.tail.dropWhile isPySpace
          match stripSev rest3 with
          | some rest4 =>
            let ws := rest4.takeWhile isPySpace
            if ws.isEmpty then none
            else some (digitsVal ds, ⟨rest4.drop ws.length⟩)
          | none => none
        else none
    else none

/-- Greedy search for the primary pattern: try the longest candidate file
name first (the Python engine backtracks `(.+)` from the right, so the first,
i.e. longest, viable split wins).  `k` bounds the file-name length still to
be tried. -/
def matchPrimaryGo (line : List Char) : Nat → Option (String × Nat × String)
  | 0 => none
  | k + 1 =>
    match parseAfterFile (line.drop (k + 1)) with
    | some (n, m) => some (⟨line.take (k + 1)⟩, n, m)
    | none => matchPrimaryGo line k

/-- `re.search(r"(.+):(\d+):\s*(error|warning):\s+(.*)", line)`, yielding
(file name, line number, message) on a match. -/
def matchPrimary (line : List Char) : Option (String × Nat × String) :=
  matchPrimaryGo line line.length

/-- `re.search(r"^(error|warning):\s+(.*)$", line)`, yielding the message. -/
def matchFallback (line : List Char) : Option String :=
  match stripSev line with
  | some rest =>
    let ws := rest.takeWhile isPySpace
    if ws.isEmpty then none else some ⟨rest.drop ws.length⟩
  | none => none

/-- Python's `str.rstrip()`: remove trailing whitespace. -/
def rstrip (l : List Char) : List Char :=
  (l.reverse.dropWhile isPySpace).reverse

/-- Python's `text.split("\n")` (note `"".split("\n") == [""]`). -/
def splitLines : List Char → List (List Char)
  | [] => [[]]
  | c :: rest =>
    if c = '\n' then [] :: splitLines rest
    else
      match splitLines rest with
      | l :: ls => (c :: l) :: ls
      | [] => [[c]]

/-- The Diagnostic Collection: `Dict[str, Set[DoxygenError]]` embedded as an
association list in key-insertion order whose value lists carry no
duplicates (Python `set` semantics under the structural equality of
`DoxygenError`). -/
abbrev ErrorsByFilename := List (String × List DoxygenError)

/-- `set.add`: insert a record unless an equal one is already present. -/
def addToSet (s : List DoxygenError) (e : DoxygenError) : List DoxygenError :=
  if e ∈ s then s else s ++ [e]

/-- `errors[filename].add(e)` on a `defaultdict(set)`: find the key, adding a
fresh singleton entry at the end when absent. -/
def addError (errors : ErrorsByFilename) (key : String) (e : DoxygenError) :
    ErrorsByFilename :=
  match errors with
  | [] => [(key, [e])]
  | (k, s) :: rest =>
    if k = key then (k, addToSet s e) :: rest else (k, s) :: addError rest key e

/-- The body of the `for line in error_text.split("\n")` loop of
`parse_doxygen`: rstrip, try the primary pattern, fall back to the generic
pattern, else ignore the line. -/
def processLine (errors : ErrorsByFilename) (rawLine : List Char) :
    ErrorsByFilename :=
  let line := rstrip rawLine
  match matchPrimary line with
  | some (filename, n, m) => addError errors filename ⟨n, m⟩
  | none =>
    match matchFallback line with
    | some m => addError errors "doxygen" ⟨0, m⟩
    | none => errors

/-- `parse_doxygen`: fold the per-line classifier over the split input. -/
def parse_doxygen (error_text : String) : ErrorsByFilename :=
  (splitLines error_text.data).foldl processLine []

/-- An XML element: tag, attributes in assignment order, children in
creation order. -/
inductive XmlNode where
  | mk (tag : String) (attrs : List (String × String)) (children : List XmlNode)

def XmlNode.tag : XmlNode → String
  | .mk t _ _ => t

def XmlNode.attrs : XmlNode → List (String × String)
  | .mk _ a _ => a

def XmlNode.children : XmlNode → List XmlNode
  | .mk _ _ c => c

/-- First-match attribute lookup. -/
def getAttr (k : String) : List (String × String) → Option String
  | [] => none
  | (a, v) :: rest => if a = k then some v else getAttr k rest

/-- One `testcase` element as built inside the double loop of
`generate_test_suite`, with its nested `error` element. -/
def testcaseNode (filename : String) (e : DoxygenError) : XmlNode :=
  .mk "testcase"
    [("name", filename), ("file", filename), ("line", pyStr e.line)]
    [.mk "error" [("message", pyStr e.line ++ ": " ++ e.message)] []]

/-- The `testcase` children emitted by the nested
`for filename, errors in ...: for error in errors:` loops. -/
def suiteChildren : ErrorsByFilename → List XmlNode
  | [] => []
  | (filename, errs) :: rest => errs.map (testcaseNode filename) ++ suiteChildren rest

/-- `generate_test_suite`: the root `testsuite` element with its counters and
children (attribute order follows the assignment order in the source). -/
def generate_test_suite (errors_by_filename : ErrorsByFilename) : XmlNode :=
  if errors_by_filename.length = 0 then
    .mk "testsuite"
      [("failures", pyStr 0), ("name", "doxygen"), ("time", pyStr 0),
       ("tests", pyStr 1), ("errors", pyStr 0)]
      [.mk "testcase" [("name", "no errors")] []]
  else
    .mk "testsuite"
      [("failures", pyStr 0), ("name", "doxygen"), ("time", pyStr 0),
       ("errors", pyStr errors_by_filename.length),
       ("tests", pyStr errors_by_filename.length)]
      (suiteChildren errors_by_filename)

/-! ### Decimal rendering: `pyStr` is injective -/

lemma digit_toNat {d : Nat} (h : d < 10) : (Char.ofNat (48 + d)).toNat = 48 + d := by
  interval_cases d <;> decide

lemma natDigitsAux_val (fuel : Nat) :
    ∀ n : Nat, n ≤ fuel → ∀ acc : Nat,
      (natDigitsAux fuel n).foldl (fun a c => a * 10 + (c.toNat - 48)) acc
        = acc * 10 ^ (natDigitsAux fuel n).length + n := by
  induction fuel with
  | zero =>
    intro n hn acc
    have hn0 : n = 0 := Nat.le_zero.mp hn
    subst hn0
    simp [natDigitsAux]
  | succ fuel ih =>
    intro n hn acc
    by_cases h0 : n = 0
    · subst h0; simp [natDigitsAux]
    · have hdiv : n / 10 ≤ fuel := by
        have hlt : n / 10 < n := Nat.div_lt_self (Nat.pos_of_ne_zero h0) (by omega)
        omega
      have hmod : n % 10 < 10 := Nat.mod_lt _ (by omega)
      rw [natDigitsAux, if_neg h0, List.foldl_append, List.length_append]
      rw [ih (n / 10) hdiv acc]
      simp only [List.foldl_cons, List.foldl_nil, List.length_cons, List.length_nil]
      rw [digit_toNat hmod]
      have hrw : 48 + n % 10 - 48 = n % 10 := by omega
      rw [hrw, pow_succ]
      have hmd : 10 * (n / 10) + n % 10 = n := Nat.div_add_mod n 10
      calc (acc * 10 ^ (natDigitsAux fuel (n / 10)).length + n / 10) * 10 + n % 10
          = acc * (10 ^ (natDigitsAux fuel (n / 10)).length * 10)
              + (10 * (n / 10) + n % 10) := by ring
        _ = acc * (10 ^ (natDigitsAux fuel (n / 10)).length * 10) + n := by rw [hmd]

lemma digitsVal_pyStr (n : Nat) : digitsVal (pyStr n).data = n := by
  by_cases h0 : n = 0
  · subst h0; decide
  · have : (pyStr n).data = natDigitsAux n n := by
      simp [pyStr, h0]
    rw [this]
    have := natDigitsAux_val n n (le_refl n) 0
    simpa [digitsVal] using this

lemma pyStr_injective : Function.Injective pyStr := by
  intro a b h
  have ha := digitsVal_pyStr a
  rw [h, digitsVal_pyStr] at ha
  omega

/-! ### Generic list helpers -/

lemma drop_length_takeWhile (p : Char → Bool) (l : List Char) :
    l.drop (l.takeWhile p).length = l.dropWhile p := by
  induction l with
  | nil => rfl
  | cons a l ih =>
    by_cases h : p a <;> simp [List.takeWhile_cons, List.dropWhile_cons, h, ih]

lemma head?_dropWhile_not (p : Char → Bool) (l : List Char) :
    ∀ c, (l.dropWhile p).head? = some c → p c = false := by
  induction l with
  | nil => intro c h; simp at h
  | cons a l ih =>
    intro c h
    by_cases ha : p a
    · rw [List.dropWhile_cons, if_pos ha] at h
      exact ih c h
    · rw [List.dropWhile_cons, if_neg ha] at h
      simp at h
      subst h
      exact Bool.eq_false_iff.mpr ha

/-- Trailing whitespace never survives `rstrip`: the result is not of the
form `A ++ ws` with `ws` a non-empty run of whitespace. -/
lemma rstrip_no_trailing (raw A ws : List Char) (hws : ws ≠ [])
    (hall : ∀ c ∈ ws, isPySpace c = true) : rstrip raw ≠ A ++ ws := by
  intro h
  have hrev : raw.reverse.dropWhile isPySpace = ws.reverse ++ A.reverse := by
    have := congrArg List.reverse h
    rw [rstrip] at this
    rw [List.reverse_reverse, List.reverse_append] at this
    exact this
  cases hwr : ws.reverse with
  | nil => exact hws (by simpa using congrArg List.reverse hwr)
  | cons c t =>
    have hc : c ∈ ws := by
      have : c ∈ ws.reverse := by rw [hwr]; exact List.mem_cons_self c t
      exact List.mem_reverse.mp this
    have hhead : (raw.reverse.dropWhile isPySpace).head? = some c := by
      rw [hrev, hwr]; rfl
    have := head?_dropWhile_not isPySpace raw.reverse c hhead
    rw [hall c hc] at this
    simp at this

/-! ### Soundness of the literal and severity matchers -/

lemma stripLit_sound (p : List Char) :
    ∀ l r, stripLit p l = some r → l = p ++ r := by
  induction p with
  | nil => intro l r h; simp [stripLit] at h; simp [h]
  | cons x xs ih =>
    intro l r h
    cases l with
    | nil => simp [stripLit] at h
    | cons c cs =>
      rw [stripLit] at h
      by_cases hc : c = x
      · rw [if_pos hc] at h
        have := ih cs r h
        simp [hc, this]
      · rw [if_neg hc] at h
        exact absurd h (by simp)

lemma stripSev_sound (l r : List Char) (h : stripSev l = some r) :
    l = "error:".data ++ r ∨ l = "warning:".data ++ r := by
  rw [stripSev] at h
  cases he : stripLit "error:".data l with
  | some r1 =>
    rw [he] at h
    injection h with h1
    subst h1
    exact Or.inl (stripLit_sound _ _ _ he)
  | none =>
    rw [he] at h
    exact Or.inr (stripLit_sound _ _ _ h)

/-! ### Soundness of `parseAfterFile` and of the greedy primary match -/

/-- Structure theorem for the remainder matcher: a successful parse exhibits
the input as `:<digits>:<middle><spaces+><message>`, where `<middle>` is the
optional whitespace run together with the severity keyword and its colon. -/
lemma parseAfterFile_sound (r : List Char) (n : Nat) (m : String)
    (h : parseAfterFile r = some (n, m)) :
    ∃ ds mid ws, ds ≠ [] ∧ (∀ c ∈ ds, c.isDigit = true) ∧ n = digitsVal ds ∧
      ws ≠ [] ∧ (∀ c ∈ ws, isPySpace c = true) ∧
      r = ':' :: (ds ++ ':' :: (mid ++ (ws ++ m.data))) := by
  cases r with
  | nil => simp [parseAfterFile] at h
  | cons c rest1 =>
    rw [parseAfterFile] at h
    by_cases hc : c = ':'
    case neg => rw [if_neg hc] at h; exact absurd h (by simp)
    rw [if_pos hc] at h
    subst hc
    simp only at h
    by_cases hds : (rest1.takeWhile Char.isDigit).isEmpty
    case pos => rw [if_pos hds] at h; exact absurd h (by simp)
    rw [if_neg hds] at h
    by_cases hcol : (rest1.drop (rest1.takeWhile Char.isDigit).length).head? = some ':'
    case neg => rw [if_neg hcol] at h; exact absurd h (by simp)
    rw [if_pos hcol] at h
    obtain ⟨rest2, hdrop⟩ :
        ∃ rest2, rest1.drop (rest1.takeWhile Char.isDigit).length = ':' :: rest2 := by
      cases hd : rest1.drop (rest1.takeWhile Char.isDigit).length with
      | nil => rw [hd] at hcol; exact absurd hcol (by simp)
      | cons a t =>
        rw [hd] at hcol
        simp at hcol
        exact ⟨t, by rw [hcol]⟩
    rw [hdrop] at h
    simp only [List.tail_cons] at h
    cases hsev : stripSev (rest2.dropWhile isPySpace) with
    | none => rw [hsev] at h; exact absurd h (by simp)
    | some rest4 =>
      rw [hsev] at h
      simp only at h
      by_cases hws : (rest4.takeWhile isPySpace).isEmpty
      case pos => rw [if_pos hws] at h; exact absurd h (by simp)
      rw [if_neg hws] at h
      injection h with h
      injection h with hn hm
      have hm4 : m.data = rest4.drop (rest4.takeWhile isPySpace).length := by
        rw [← hm]
      have hrest4 : rest4 = rest4.takeWhile isPySpace ++ m.data := by
        rw [hm4, drop_length_takeWhile]
        exact (List.takeWhile_append_dropWhile _ _).symm
      have hrest1 : rest1 = rest1.takeWhile Char.isDigit ++ (':' :: rest2) := by
        conv_lhs => rw [← List.takeWhile_append_dropWhile (p := Char.isDigit) (l := rest1)]
        rw [← drop_length_takeWhile Char.isDigit rest1, hdrop]
      rcases stripSev_sound _ _ hsev with hE | hW
      · refine ⟨rest1.takeWhile Char.isDigit,
          rest2.takeWhile isPySpace ++ "error:".data,
          rest4.takeWhile isPySpace, ?_, ?_, hn.symm, ?_, ?_, ?_⟩
        · intro hnil; rw [hnil] at hds; exact hds rfl
        · intro c hcmem; exact List.mem_takeWhile_imp hcmem
        · intro hnil; rw [hnil] at hws; exact hws rfl
        · intro c hcmem; exact List.mem_takeWhile_imp hcmem
        · have hrest2 : rest2 = rest2.takeWhile isPySpace ++ ("error:".data ++ rest4) := by
            conv_lhs => rw [← List.takeWhile_append_dropWhile (p := isPySpace) (l := rest2)]
            rw [hE]
          conv_lhs => rw [hrest1]
          conv_lhs => rw [hrest2]
          conv_lhs => rw [hrest4]
          simp [List.append_assoc, List.cons_append]
      · refine ⟨rest1.takeWhile Char.isDigit,
          rest2.takeWhile isPySpace ++ "warning:".data,
          rest4.takeWhile isPySpace, ?_, ?_, hn.symm, ?_, ?_, ?_⟩
        · intro hnil; rw [hnil] at hds; exact hds rfl
        · intro c hcmem; exact List.mem_takeWhile_imp hcmem
        · intro hnil; rw [hnil] at hws; exact hws rfl
        · intro c hcmem; exact List.mem_takeWhile_imp hcmem
        · have hrest2 : rest2 = rest2.takeWhile isPySpace ++ ("warning:".data ++ rest4) := by
            conv_lhs => rw [← List.takeWhile_append_dropWhile (p := isPySpace) (l := rest2)]
            rw [hW]
          conv_lhs => rw [hrest1]
          conv_lhs => rw [hrest2]
          conv_lhs => rw [hrest4]
          simp [List.append_assoc, List.cons_append]

/-- The greedy search returns the longest viable file-name prefix within its
bound, and knows that every longer candidate fails. -/
lemma matchPrimaryGo_sound (line : List Char) :
    ∀ i f n m, matchPrimaryGo line i = some (f, n, m) →
      ∃ k, 1 ≤ k ∧ k ≤ i ∧ f = ⟨line.take k⟩ ∧
        parseAfterFile (line.drop k) = some (n, m) ∧
        ∀ j, k < j → j ≤ i → parseAfterFile (line.drop j) = none := by
  intro i
  induction i with
  | zero => intro f n m h; simp [matchPrimaryGo] at h
  | succ k ih =>
    intro f n m h
    rw [matchPrimaryGo] at h
    cases hp : parseAfterFile (line.drop (k + 1)) with
    | some v =>
      rw [hp] at h
      obtain ⟨n0, m0⟩ := v
      simp only at h
      injection h with h
      injection h with hf h
      injection h with hn hm
      refine ⟨k + 1, by omega, le_refl _, hf.symm, ?_, ?_⟩
      · rw [hp, hn, hm]
      · intro j hj1 hj2; omega
    | none =>
      rw [hp] at h
      simp only at h
      obtain ⟨k0, h1, h2, h3, h4, h5⟩ := ih f n m h
      refine ⟨k0, h1, by omega, h3, h4, ?_⟩
      intro j hj1 hj2
      rcases Nat.lt_or_ge j (k + 1) with hlt | hge
      · exact h5 j hj1 (by omega)
      · have : j = k + 1 := by omega
        rw [this]
        exact hp

/-- Soundness and maximality of the primary match: the returned file name is
a viable prefix of the line, and no strictly longer prefix is viable. -/
lemma matchPrimary_sound (line : List Char) (f : String) (n : Nat) (m : String)
    (h : matchPrimary line = some (f, n, m)) :
    1 ≤ f.data.length ∧ f.data.length ≤ line.length ∧
      f.data = line.take f.data.length ∧
      parseAfterFile (line.drop f.data.length) = some (n, m) ∧
      ∀ j, f.data.length < j → parseAfterFile (line.drop j) = none := by
  obtain ⟨k, h1, h2, h3, h4, h5⟩ := matchPrimaryGo_sound line line.length f n m h
  have hfd : f.data = line.take k := by rw [h3]
  have hlen : f.data.length = k := by
    rw [hfd, List.length_take]
    omega
  rw [hlen]
  refine ⟨h1, h2, hfd, h4, ?_⟩
  intro j hj
  rcases Nat.lt_or_ge line.length j with hbig | hle
  · have : line.drop j = [] := List.drop_eq_nil_of_le (by omega)
    rw [this]
    rfl
  · exact h5 j hj hle

/-- A record produced through the primary pattern on an `rstrip`-ped line
never carries an empty message: the mandatory whitespace before the message
would otherwise be trailing whitespace. -/
lemma matchPrimary_message_ne (raw : List Char) (f : String) (n : Nat) (m : String)
    (h : matchPrimary (rstrip raw) = some (f, n, m)) : m ≠ "" := by
  intro hemp
  subst hemp
  obtain ⟨_, _, hfd, h4, _⟩ := matchPrimary_sound _ _ _ _ h
  obtain ⟨ds, mid, ws, _, _, _, hws, hwsall, hshape⟩ := parseAfterFile_sound _ _ _ h4
  have hsplit : rstrip raw =
      (rstrip raw).take f.data.length ++ (rstrip raw).drop f.data.length :=
    (List.take_append_drop _ _).symm
  rw [hshape] at hsplit
  have key : ∀ L A ds2 mid2 ws2 : List Char,
      L = A ++ ':' :: (ds2 ++ ':' :: (mid2 ++ (ws2 ++ []))) →
      L = (A ++ ':' :: (ds2 ++ ':' :: mid2)) ++ ws2 := by
    intro L A ds2 mid2 ws2 hL
    subst hL
    simp [List.append_assoc]
  exact rstrip_no_trailing raw _ ws hws hwsall
    (key _ _ _ _ _ hsplit)

/-- Same for the fallback pattern. -/
lemma matchFallback_message_ne (raw : List Char) (m : String)
    (h : matchFallback (rstrip raw) = some m) : m ≠ "" := by
  intro hemp
  subst hemp
  rw [matchFallback] at h
  cases hsev : stripSev (rstrip raw) with
  | none => rw [hsev] at h; exact absurd h (by simp)
  | some rest =>
    rw [hsev] at h
    simp only at h
    by_cases hws : (rest.takeWhile isPySpace).isEmpty
    case pos => rw [if_pos hws] at h; exact absurd h (by simp)
    rw [if_neg hws] at h
    injection h with hm
    have hmd : ("" : String).data = rest.drop (rest.takeWhile isPySpace).length := by
      rw [← hm]
    have hrest : rest = rest.takeWhile isPySpace := by
      conv_lhs => rw [← List.take_append_drop (rest.takeWhile isPySpace).length rest]
      rw [← hmd]
      have htk : rest.take (rest.takeWhile isPySpace).length = rest.takeWhile isPySpace := by
        have := congrArg (List.take (rest.takeWhile isPySpace).length)
          (List.takeWhile_append_dropWhile (p := isPySpace) (l := rest)).symm
        rw [List.take_left] at this
        exact this
      rw [htk]
      simp
    have hwsne : rest.takeWhile isPySpace ≠ [] := by
      intro hnil; rw [hnil] at hws; exact hws rfl
    rcases stripSev_sound _ _ hsev with hE | hW
    · have : rstrip raw = "error:".data ++ rest.takeWhile isPySpace := by
        rw [hE, ← hrest]
      exact rstrip_no_trailing raw _ _ hwsne
        (fun c hc => List.mem_takeWhile_imp hc) this
    · have : rstrip raw = "warning:".data ++ rest.takeWhile isPySpace := by
        rw [hW, ← hrest]
      exact rstrip_no_trailing raw _ _ hwsne
        (fun c hc => List.mem_takeWhile_imp hc) this

/-! ### Invariants of the Diagnostic Collection -/

/-- Well-formedness of a collection: distinct keys, and no duplicate record
inside any per-key set. -/
abbrev WellFormed (ebf : ErrorsByFilename) : Prop :=
  (ebf.map Prod.fst).Nodup ∧ ∀ p ∈ ebf, (p.2 : List DoxygenError).Nodup

lemma addToSet_nodup (s : List DoxygenError) (e : DoxygenError) (h : s.Nodup) :
    (addToSet s e).Nodup := by
  rw [addToSet]
  by_cases hmem : e ∈ s
  · rw [if_pos hmem]; exact h
  · rw [if_neg hmem]
    rw [List.nodup_append]
    refine ⟨h, List.nodup_singleton e, ?_⟩
    intro a ha hb
    rw [List.mem_singleton] at hb
    subst hb
    exact hmem ha

lemma mem_keys_addError (l : ErrorsByFilename) (key : String) (e : DoxygenError)
    (x : String) :
    x ∈ (addError l key e).map Prod.fst ↔ x ∈ l.map Prod.fst ∨ x = key := by
  induction l with
  | nil => simp [addError]
  | cons p rest ih =>
    obtain ⟨k, s⟩ := p
    rw [addError]
    by_cases hk : k = key
    · rw [if_pos hk]
      subst hk
      simp only [List.map_cons, List.mem_cons]
      constructor
      · intro h; rcases h with h | h
        · exact Or.inr h
        · exact Or.inl (Or.inr h)
      · intro h; rcases h with (h | h) | h
        · exact Or.inl h
        · exact Or.inr h
        · exact Or.inl h
    · rw [if_neg hk]
      simp only [List.map_cons, List.mem_cons, ih]
      tauto

lemma addError_wf (l : ErrorsByFilename) (key : String) (e : DoxygenError)
    (h : WellFormed l) : WellFormed (addError l key e) := by
  induction l with
  | nil =>
    refine ⟨by simp [addError], ?_⟩
    intro p hp
    rw [addError] at hp
    rw [List.mem_singleton] at hp
    subst hp
    exact List.nodup_singleton e
  | cons q rest ih =>
    obtain ⟨k, s⟩ := q
    obtain ⟨hkeys, hvals⟩ := h
    rw [List.map_cons, List.nodup_cons] at hkeys
    obtain ⟨hknot, hkeys'⟩ := hkeys
    have hwfrest : WellFormed rest := ⟨hkeys', fun p hp => hvals p (List.mem_cons_of_mem _ hp)⟩
    rw [addError]
    by_cases hk : k = key
    · rw [if_pos hk]
      refine ⟨?_, ?_⟩
      · rw [List.map_cons, List.nodup_cons]
        exact ⟨hknot, hkeys'⟩
      · intro p hp
        rw [List.mem_cons] at hp
        rcases hp with hp | hp
        · subst hp
          exact addToSet_nodup s e (hvals (k, s) (List.mem_cons_self _ _))
        · exact hvals p (List.mem_cons_of_mem _ hp)
    · rw [if_neg hk]
      obtain ⟨ihkeys, ihvals⟩ := ih hwfrest
      refine ⟨?_, ?_⟩
      · rw [List.map_cons, List.nodup_cons]
        refine ⟨?_, ihkeys⟩
        rw [mem_keys_addError]
        intro hcon
        rcases hcon with hcon | hcon
        · exact hknot hcon
        · exact hk hcon
      · intro p hp
        rw [List.mem_cons] at hp
        rcases hp with hp | hp
        · subst hp
          exact hvals (k, s) (List.mem_cons_self _ _)
        · exact ihvals p hp

lemma processLine_wf (errors : ErrorsByFilename) (rawLine : List Char)
    (h : WellFormed errors) : WellFormed (processLine errors rawLine) := by
  rw [processLine]
  cases hp : matchPrimary (rstrip rawLine) with
  | some v =>
    obtain ⟨filename, n, m⟩ := v
    simp only
    exact addError_wf _ _ _ h
  | none =>
    simp only
    cases hf : matchFallback (rstrip rawLine) with
    | some m => simp only; exact addError_wf _ _ _ h
    | none => simp only; exact h

lemma foldl_processLine_wf (lines : List (List Char)) :
    ∀ acc, WellFormed acc → WellFormed (lines.foldl processLine acc) := by
  induction lines with
  | nil => intro acc h; exact h
  | cons l ls ih =>
    intro acc h
    rw [List.foldl_cons]
    exact ih _ (processLine_wf acc l h)

/-- Every collection produced by `parse_doxygen` is well-formed. -/
lemma parse_doxygen_wf (text : String) : WellFormed (parse_doxygen text) := by
  rw [parse_doxygen]
  exact foldl_processLine_wf _ []
    ⟨List.nodup_nil, fun p hp => absurd hp (List.not_mem_nil p)⟩

/-- Number of records equal to `e` stored under key `k` across the whole
collection. -/
def occCount (ebf : ErrorsByFilename) (k : String) (e : DoxygenError) : Nat :=
  match ebf with
  | [] => 0
  | (k0, s) :: rest => (if k0 = k then s.count e else 0) + occCount rest k e

lemma occCount_eq_zero (k : String) (e : DoxygenError) :
    ∀ l : ErrorsByFilename, k ∉ l.map Prod.fst → occCount l k e = 0 := by
  intro l
  induction l with
  | nil => intro _; rfl
  | cons p rest ih =>
    obtain ⟨k0, s⟩ := p
    intro h
    rw [List.map_cons, List.mem_cons] at h
    push_neg at h
    rw [occCount, if_neg (fun hc => h.1 hc.symm), ih h.2]

lemma occCount_le_one (k : String) (e : DoxygenError) :
    ∀ l : ErrorsByFilename, WellFormed l → occCount l k e ≤ 1 := by
  intro l
  induction l with
  | nil => intro _; exact Nat.zero_le 1
  | cons p rest ih =>
    obtain ⟨k0, s⟩ := p
    intro h
    obtain ⟨hkeys, hvals⟩ := h
    rw [List.map_cons, List.nodup_cons] at hkeys
    obtain ⟨hknot, hkeys'⟩ := hkeys
    have hwfrest : WellFormed rest :=
      ⟨hkeys', fun p hp => hvals p (List.mem_cons_of_mem _ hp)⟩
    rw [occCount]
    by_cases hk : k0 = k
    · rw [if_pos hk]
      have hzero : occCount rest k e = 0 := by
        apply occCount_eq_zero
        rw [← hk]
        exact hknot
      rw [hzero]
      have hnd : s.Nodup := hvals (k0, s) (List.mem_cons_self _ _)
      have := List.nodup_iff_count_le_one.mp hnd e
      omega
    · rw [if_neg hk]
      have := ih hwfrest
      omega

/-! ### No-match lines leave the collection unchanged -/

lemma processLine_no_match (errors : ErrorsByFilename) (l : List Char)
    (h1 : matchPrimary (rstrip l) = none) (h2 : matchFallback (rstrip l) = none) :
    processLine errors l = errors := by
  rw [processLine, h1, h2]

lemma foldl_processLine_no_match (lines : List (List Char))
    (h : ∀ l ∈ lines, matchPrimary (rstrip l) = none ∧ matchFallback (rstrip l) = none) :
    lines.foldl processLine [] = [] := by
  induction lines with
  | nil => rfl
  | cons l ls ih =>
    rw [List.foldl_cons]
    have hl := h l (List.mem_cons_self _ _)
    rw [processLine_no_match [] l hl.1 hl.2]
    exact ih (fun x hx => h x (List.mem_cons_of_mem _ hx))

/-! ### Counting testcase children -/

/-- Recognizer for the exact `testcase` element that `generate_test_suite`
emits for key `k` and record `e`. -/
def isTestcaseFor (k : String) (e : DoxygenError) : XmlNode → Bool
  | .mk t a c =>
    decide (t = "testcase") &&
      decide (a = [("name", k), ("file", k), ("line", pyStr e.line)]) &&
      (match c with
       | [XmlNode.mk t2 a2 c2] =>
         decide (t2 = "error") &&
           decide (a2 = [("message", pyStr e.line ++ ": " ++ e.message)]) &&
           c2.isEmpty
       | _ => false)

lemma isTestcaseFor_self (k : String) (e : DoxygenError) :
    isTestcaseFor k e (testcaseNode k e) = true := by
  simp [isTestcaseFor, testcaseNode, List.isEmpty]

lemma string_append_cancel_left (s t1 t2 : String) (h : s ++ t1 = s ++ t2) :
    t1 = t2 := by
  have hd := congrArg String.data h
  rw [String.data_append, String.data_append] at hd
  exact String.ext (List.append_cancel_left hd)

lemma isTestcaseFor_iff (k : String) (e : DoxygenError) (k2 : String)
    (e2 : DoxygenError) :
    isTestcaseFor k e (testcaseNode k2 e2) = true ↔ (k2 = k ∧ e2 = e) := by
  constructor
  · intro h
    rw [testcaseNode, isTestcaseFor] at h
    simp only at h
    simp only [Bool.and_eq_true] at h
    obtain ⟨⟨-, hB⟩, ⟨-, hE⟩, -⟩ := h
    have hattrs := of_decide_eq_true hB
    have hmsge := of_decide_eq_true hE
    injection hattrs with h1 hrest1
    injection h1 with hx1 hk
    injection hrest1 with h2 hrest2
    injection hrest2 with h3 hx2
    injection h3 with hx3 hline
    injection hmsge with h4 hx4
    injection h4 with hx5 hmsg
    have hlinee : e2.line = e.line := pyStr_injective hline
    refine ⟨hk, ?_⟩
    have hmsg2 : pyStr e2.line ++ ": " ++ e2.message
        = pyStr e.line ++ ": " ++ e.message := hmsg
    rw [hlinee] at hmsg2
    have hmm : e2.message = e.message := by
      have h1 : pyStr e.line ++ (": " ++ e2.message)
          = pyStr e.line ++ (": " ++ e.message) := by
        rw [← String.append_assoc, ← String.append_assoc]
        exact hmsg2
      have h2 := string_append_cancel_left _ _ _ h1
      exact string_append_cancel_left ": " _ _ h2
    cases e2
    cases e
    simp only at hlinee hmm
    rw [hlinee, hmm]
  · intro h
    rw [h.1, h.2]
    exact isTestcaseFor_self k e

lemma isTestcaseFor_ne_key (k : String) (e : DoxygenError) (k2 : String)
    (e2 : DoxygenError) (h : k2 ≠ k) :
    isTestcaseFor k e (testcaseNode k2 e2) = false := by
  rw [← Bool.not_eq_true, isTestcaseFor_iff]
  intro hc
  exact h hc.1

/-- Counting a predicate that singles out one element of a duplicate-free
list. -/
lemma countP_eq_one_of_nodup {α : Type} (p : α → Bool) (e : α) :
    ∀ l : List α, (∀ x ∈ l, p x = true ↔ x = e) → l.Nodup → e ∈ l →
      l.countP p = 1 := by
  intro l
  induction l with
  | nil => intro _ _ he; exact absurd he (List.not_mem_nil e)
  | cons a t ih =>
    intro hiff hnd he
    rw [List.nodup_cons] at hnd
    rw [List.countP_cons]
    by_cases ha : a = e
    · subst ha
      have hp : p a = true := (hiff a (List.mem_cons_self _ _)).mpr rfl
      have hzero : t.countP p = 0 := by
        rw [List.countP_eq_zero]
        intro x hx hpx
        have := (hiff x (List.mem_cons_of_mem _ hx)).mp hpx
        subst this
        exact hnd.1 hx
      rw [hp, hzero]
      simp
    · have hp : p a = false := by
        rw [← Bool.not_eq_true]
        intro hpa
        exact ha ((hiff a (List.mem_cons_self _ _)).mp hpa)
      have hemem : e ∈ t := by
        rcases List.mem_cons.mp he with h | h
        · exact absurd h.symm ha
        · exact h
      have hone := ih (fun x hx => hiff x (List.mem_cons_of_mem _ hx)) hnd.2 hemem
      rw [hp, hone]
      simp

lemma countP_suiteChildren_zero (k : String) (e : DoxygenError) :
    ∀ ebf : ErrorsByFilename, k ∉ ebf.map Prod.fst →
      (suiteChildren ebf).countP (isTestcaseFor k e) = 0 := by
  intro ebf
  induction ebf with
  | nil => intro _; rfl
  | cons p rest ih =>
    obtain ⟨k0, s⟩ := p
    intro h
    rw [List.map_cons, List.mem_cons] at h
    push_neg at h
    rw [suiteChildren, List.countP_append]
    have hmap : (s.map (testcaseNode k0)).countP (isTestcaseFor k e) = 0 := by
      rw [List.countP_eq_zero]
      intro x hx hpx
      rw [List.mem_map] at hx
      obtain ⟨e2, -, hx⟩ := hx
      subst hx
      rw [isTestcaseFor_ne_key k e k0 e2 (fun hc => h.1 hc.symm)] at hpx
      exact absurd hpx (by simp)
    rw [hmap, ih h.2]

/-- In a well-formed non-empty collection, each (key, record) pair owns
exactly one `testcase` child. -/
lemma countP_suiteChildren_one (k : String) (e : DoxygenError) :
    ∀ ebf : ErrorsByFilename, (ebf.map Prod.fst).Nodup →
      (∀ p ∈ ebf, (p.2 : List DoxygenError).Nodup) →
      ∀ l, (k, l) ∈ ebf → e ∈ l →
        (suiteChildren ebf).countP (isTestcaseFor k e) = 1 := by
  intro ebf
  induction ebf with
  | nil => intro _ _ l hl _; exact absurd hl (List.not_mem_nil _)
  | cons p rest ih =>
    obtain ⟨k0, s⟩ := p
    intro hkeys hvals l hl he
    rw [List.map_cons, List.nodup_cons] at hkeys
    rw [suiteChildren, List.countP_append]
    rcases List.mem_cons.mp hl with hhead | htail
    · injection hhead with hk hs
      subst hk
      subst hs
      have hone : (l.map (testcaseNode k)).countP (isTestcaseFor k e) = 1 := by
        rw [List.countP_map]
        apply countP_eq_one_of_nodup _ e
        · intro x _
          show isTestcaseFor k e (testcaseNode k x) = true ↔ x = e
          rw [isTestcaseFor_iff]
          simp
        · exact hvals (k, l) (List.mem_cons_self _ _)
        · exact he
      have hzero : (suiteChildren rest).countP (isTestcaseFor k e) = 0 :=
        countP_suiteChildren_zero k e rest hkeys.1
      rw [hone, hzero]
    · have hkmem : k ∈ rest.map Prod.fst := by
        rw [List.mem_map]
        exact ⟨(k, l), htail, rfl⟩
      have hk0 : k0 ≠ k := fun hc => hkeys.1 (hc ▸ hkmem)
      have hzero : (s.map (testcaseNode k0)).countP (isTestcaseFor k e) = 0 := by
        rw [List.countP_eq_zero]
        intro x hx hpx
        rw [List.mem_map] at hx
        obtain ⟨e2, -, hx⟩ := hx
        subst hx
        rw [isTestcaseFor_ne_key k e k0 e2 hk0] at hpx
        exact absurd hpx (by simp)
      have hone := ih hkeys.2 (fun q hq => hvals q (List.mem_cons_of_mem _ hq)) l htail he
      rw [hzero, hone]

/-! ### Shape of the emitted suite -/

lemma generate_test_suite_attrs (ebf : ErrorsByFilename) (h : ebf ≠ []) :
    (generate_test_suite ebf).attrs =
      [("failures", pyStr 0), ("name", "doxygen"), ("time", pyStr 0),
       ("errors", pyStr ebf.length), ("tests", pyStr ebf.length)] := by
  rw [generate_test_suite, if_neg (fun hc => h (List.length_eq_zero.mp hc))]
  rfl

lemma generate_test_suite_children (ebf : ErrorsByFilename) (h : ebf ≠ []) :
    (generate_test_suite ebf).children = suiteChildren ebf := by
  rw [generate_test_suite, if_neg (fun hc => h (List.length_eq_zero.mp hc))]
  rfl

/-! ### The claims -/

/-- Claim C1: for every non-empty Diagnostic Collection,
`generate_test_suite` sets both the suite's `errors` and `tests` attributes
to the number of distinct grouping keys (file names), not to the number of
individual records; in particular one file holding three distinct records
yields errors=1, tests=1 while the body carries exactly three testcase
children. -/
theorem claim_C1 (ebf : ErrorsByFilename) (h : ebf ≠ []) :
    getAttr "errors" (generate_test_suite ebf).attrs = some (pyStr ebf.length) ∧
    getAttr "tests" (generate_test_suite ebf).attrs = some (pyStr ebf.length) ∧
    getAttr "errors" (generate_test_suite
      (parse_doxygen "a.cpp:1: error: x\na.cpp:2: error: y\na.cpp:3: error: z")).attrs
      = some "1" ∧
    getAttr "tests" (generate_test_suite
      (parse_doxygen "a.cpp:1: error: x\na.cpp:2: error: y\na.cpp:3: error: z")).attrs
      = some "1" ∧
    (generate_test_suite
      (parse_doxygen "a.cpp:1: error: x\na.cpp:2: error: y\na.cpp:3: error: z")).children.length
      = 3 ∧
    (generate_test_suite
      (parse_doxygen "a.cpp:1: error: x\na.cpp:2: error: y\na.cpp:3: error: z")).children.all
      (fun c => decide (c.tag = "testcase")) = true := by
  refine ⟨?_, ?_, by decide, by decide, by decide, by decide⟩
  · rw [generate_test_suite_attrs ebf h]
    rfl
  · rw [generate_test_suite_attrs ebf h]
    rfl

/-- Witness for C1 at a concrete one-entry collection. -/
theorem claim_C1_witness :
    getAttr "errors" (generate_test_suite [("a.cpp", [⟨1, "x"⟩])]).attrs
      = some (pyStr 1) ∧
    getAttr "tests" (generate_test_suite [("a.cpp", [⟨1, "x"⟩])]).attrs
      = some (pyStr 1) := by
  have h := claim_C1 [("a.cpp", [⟨1, "x"⟩])] (by decide)
  exact ⟨h.1, h.2.1⟩

/-- Claim C2 is false as stated: on a line carrying two `:<digits>:`
boundaries the greedy `(.+)` captures up to the LAST viable boundary, not
the first, so the grouping key extends past the first boundary. -/
theorem claim_C2_counterexample :
    parse_doxygen "a:1: error: b:2: error: c" = [("a:1: error: b", [⟨2, "c"⟩])] ∧
    ("a:1: error: b" : String) ≠ "a" := by
  constructor
  · decide
  · decide

/-- Claim C2 (amended): the captured file name is the longest prefix of the
line whose remainder still parses as `:<digits>:<spaces><sev>:<spaces+><msg>`
(the last viable boundary), not the portion before the first boundary. -/
theorem claim_C2 (line : List Char) (f : String) (n : Nat) (m : String)
    (h : matchPrimary line = some (f, n, m)) :
    1 ≤ f.data.length ∧ f.data = line.take f.data.length ∧
    parseAfterFile (line.drop f.data.length) = some (n, m) ∧
    ∀ j, f.data.length < j → parseAfterFile (line.drop j) = none := by
  obtain ⟨h1, h2, h3, h4, h5⟩ := matchPrimary_sound line f n m h
  exact ⟨h1, h3, h4, h5⟩

/-- Witness for C2 at the two-boundary line. -/
theorem claim_C2_witness :
    1 ≤ ("a:1: error: b" : String).data.length ∧
    ("a:1: error: b" : String).data =
      "a:1: error: b:2: error: c".data.take ("a:1: error: b" : String).data.length := by
  have h := claim_C2 "a:1: error: b:2: error: c".data "a:1: error: b" 2 "c" (by decide)
  exact ⟨h.1, h.2.1⟩

/-- Claim C3: the collection holds at most one record per
(file, line, message) triple; duplicate identical lines collapse to one
record. -/
theorem claim_C3 (text : String) (k : String) (e : DoxygenError) :
    occCount (parse_doxygen text) k e ≤ 1 ∧
    parse_doxygen "a.cpp:42: error: oops\na.cpp:42: error: oops\na.cpp:42: error: oops"
      = [("a.cpp", [⟨42, "oops"⟩])] :=
  ⟨occCount_le_one k e _ (parse_doxygen_wf text), by decide⟩

/-- Claim C4: texts with no matching line parse to the empty collection, and
the empty collection yields the fixed placeholder suite with tests=1,
errors=0, failures=0, time=0 and the single attribute-bare "no errors"
child. -/
theorem claim_C4 (text : String)
    (h : ∀ l ∈ splitLines text.data,
      matchPrimary (rstrip l) = none ∧ matchFallback (rstrip l) = none) :
    parse_doxygen text = [] ∧
    generate_test_suite [] =
      XmlNode.mk "testsuite"
        [("failures", "0"), ("name", "doxygen"), ("time", "0"),
         ("tests", "1"), ("errors", "0")]
        [XmlNode.mk "testcase" [("name", "no errors")] []] ∧
    parse_doxygen "" = [] := by
  refine ⟨?_, rfl, rfl⟩
  rw [parse_doxygen]
  exact foldl_processLine_no_match _ h

/-- Witness for C4 on a text with no diagnostic lines. -/
theorem claim_C4_witness : parse_doxygen "hello\nworld" = [] :=
  (claim_C4 "hello\nworld" (by decide)).1

/-- Claim C5: a well-formed line `a.cpp:42: error: oops` yields exactly one
record under key "a.cpp" with line 42 and message "oops"; the severity
keyword is case-sensitive — no other capitalization matches either
pattern. -/
theorem claim_C5 :
    parse_doxygen "a.cpp:42: error: oops" = [("a.cpp", [⟨42, "oops"⟩])] ∧
    parse_doxygen "a.cpp:42: warning: oops" = [("a.cpp", [⟨42, "oops"⟩])] ∧
    parse_doxygen "a.cpp:42: Error: oops" = [] ∧
    parse_doxygen "a.cpp:42: ERROR: oops" = [] ∧
    parse_doxygen "Warning: bad config" = [] ∧
    parse_doxygen "ERROR: bad config" = [] := by
  refine ⟨by decide, by decide, by decide, by decide, by decide, by decide⟩

/-- Claim C6: when the primary pattern fails and the fallback matches, the
record (line 0, captured message) lands under the sentinel key "doxygen";
the fallback is consulted only after the primary pattern fails, so a line
matching both goes to the primary pattern's key. -/
theorem claim_C6 (errors : ErrorsByFilename) (raw : List Char) (m : String)
    (h1 : matchPrimary (rstrip raw) = none)
    (h2 : matchFallback (rstrip raw) = some m) :
    processLine errors raw = addError errors "doxygen" ⟨0, m⟩ ∧
    parse_doxygen "warning: bad config" = [("doxygen", [⟨0, "bad config"⟩])] ∧
    parse_doxygen "warning: a.cpp:42: error: oops"
      = [("warning: a.cpp", [⟨42, "oops"⟩])] := by
  refine ⟨?_, by decide, by decide⟩
  rw [processLine, h1, h2]

/-- Witness for C6 on a file-less warning line. -/
theorem claim_C6_witness :
    processLine [] "warning: bad config".data
      = addError [] "doxygen" ⟨0, "bad config"⟩ :=
  (claim_C6 [] "warning: bad config".data "bad config" (by decide) (by decide)).1

/-- Claim C7: in a well-formed non-empty collection, every (key, record)
pair owns exactly one `testcase` child with name=key, file=key, line
rendered as text, and a nested `error` child whose message is the line
number, a colon, a space and the message text. -/
theorem claim_C7 (ebf : ErrorsByFilename) (k : String) (l : List DoxygenError)
    (e : DoxygenError) (h0 : ebf ≠ []) (hwf : WellFormed ebf)
    (hmem : (k, l) ∈ ebf) (he : e ∈ l) :
    ((generate_test_suite ebf).children.countP (isTestcaseFor k e)) = 1 := by
  rw [generate_test_suite_children ebf h0]
  exact countP_suiteChildren_one k e ebf hwf.1 hwf.2 l hmem he

/-- Witness for C7 at a one-record collection. -/
theorem claim_C7_witness :
    ((generate_test_suite [("a.cpp", [⟨42, "oops"⟩])]).children.countP
      (isTestcaseFor "a.cpp" ⟨42, "oops"⟩)) = 1 :=
  claim_C7 [("a.cpp", [⟨42, "oops"⟩])] "a.cpp" [⟨42, "oops"⟩] ⟨42, "oops"⟩
    (by decide) ⟨by decide, by decide⟩ (by decide) (by decide)

/-- Claim C8 is false as stated: `(\d+)` also matches the digit string "0",
so the primary pattern does produce a record with line number 0 from a line
such as `a.cpp:0: error: oops`; line 0 is not reserved to sentinel
records. -/
theorem claim_C8_counterexample :
    matchPrimary (rstrip "a.cpp:0: error: oops".data) = some ("a.cpp", 0, "oops") ∧
    parse_doxygen "a.cpp:0: error: oops" = [("a.cpp", [⟨0, "oops"⟩])] := by
  constructor
  · decide
  · decide

/-- Claim C8 (amended): the line number captured by the primary pattern is
the decimal value of a non-empty digit run — a non-negative integer that can
be 0. -/
theorem claim_C8 (line : List Char) (f : String) (n : Nat) (m : String)
    (h : matchPrimary line = some (f, n, m)) :
    ∃ ds rest, ds ≠ [] ∧ (∀ c ∈ ds, c.isDigit = true) ∧ n = digitsVal ds ∧
      line = f.data ++ ':' :: (ds ++ ':' :: rest) := by
  obtain ⟨h1, h2, hfd, h4, h5⟩ := matchPrimary_sound line f n m h
  obtain ⟨ds, mid, ws, hds, hdig, hn, hws, hwsall, hshape⟩ :=
    parseAfterFile_sound _ _ _ h4
  refine ⟨ds, mid ++ (ws ++ m.data), hds, hdig, hn, ?_⟩
  conv_lhs => rw [← List.take_append_drop f.data.length line]
  rw [hshape, ← hfd]

/-- Witness for C8 at the zero-line-number input. -/
theorem claim_C8_witness :
    ∃ ds rest, ds ≠ [] ∧ (∀ c ∈ ds, c.isDigit = true) ∧ 0 = digitsVal ds ∧
      "a.cpp:0: error: oops".data
        = ("a.cpp" : String).data ++ ':' :: (ds ++ ':' :: rest) :=
  claim_C8 "a.cpp:0: error: oops".data "a.cpp" 0 "oops" (by decide)

/-- Claim C10: lines whose message part is empty or whitespace-only produce
no record — trailing whitespace is stripped before matching and both
patterns demand at least one whitespace character followed by the message,
so a match on an rstripped line never carries an empty message. -/
theorem claim_C10 (raw1 raw2 : List Char) (f : String) (n : Nat) (m1 m2 : String)
    (h1 : matchPrimary (rstrip raw1) = some (f, n, m1))
    (h2 : matchFallback (rstrip raw2) = some m2) :
    m1 ≠ "" ∧ m2 ≠ "" ∧
    parse_doxygen "a.cpp:42: error: " = [] ∧
    parse_doxygen "a.cpp:42: error:   " = [] ∧
    parse_doxygen "warning:" = [] ∧
    parse_doxygen "warning:  " = [] :=
  ⟨matchPrimary_message_ne raw1 f n m1 h1, matchFallback_message_ne raw2 m2 h2,
    by decide, by decide, by decide, by decide⟩

/-- Witness for C10: both matchers at concrete matching lines. -/
theorem claim_C10_witness : ("oops" : String) ≠ "" ∧ ("bad config" : String) ≠ "" := by
  have h := claim_C10 "a.cpp:42: error: oops".data "warning: bad config".data
    "a.cpp" 42 "oops" "bad config" (by decide) (by decide)
  exact ⟨h.1, h.2.1⟩
